import Mathlib

/-!
Shallow embedding of the password-generation core of the Password Generator App
(src/src/utils/passwordUtils.ts) together with theorems about its behaviour.

The random source crypto.getRandomValues is modelled as an infinite stream of
unsigned 32-bit draws, represented as a function from Nat to Nat: position n
holds the n-th value the source produces.  Each helper that consumes draws
takes the current stream and returns the advanced stream alongside its result.
-/

/-- Character set for uppercase letters, from the source constant UPPERCASE_CHARS. -/
def UPPERCASE_CHARS : List Char := "ABCDEFGHIJKLMNOPQRSTUVWXYZ".toList

/-- Character set for lowercase letters, from the source constant LOWERCASE_CHARS. -/
def LOWERCASE_CHARS : List Char := "abcdefghijklmnopqrstuvwxyz".toList

/-- Character set for digits, from the source constant NUMBER_CHARS. -/
def NUMBER_CHARS : List Char := "0123456789".toList

/-- Character set for symbols, from the source constant SYMBOL_CHARS
(the 26-character punctuation set). -/
def SYMBOL_CHARS : List Char := "!@#$%^&*()_+-=[]\x7b\x7d|;:,.<>?".toList

/-- Options record, from the PasswordOptions interface in src/src/types. -/
structure PasswordOptions where
  length : Nat
  uppercase : Bool
  lowercase : Bool
  numbers : Bool
  symbols : Bool
deriving DecidableEq, Repr

/-- Result record of the strength scorer, from the StrengthResult interface. -/
structure StrengthResult where
  level : Nat
  label : String
deriving DecidableEq, Repr

/-- Variety count computed at the start of calculatePasswordStrength: one point
per enabled category flag. -/
def varietyCount (options : PasswordOptions) : Nat :=
  (if options.uppercase then 1 else 0) + (if options.lowercase then 1 else 0) +
    (if options.numbers then 1 else 0) + (if options.symbols then 1 else 0)

/-- Ordered label table from calculatePasswordStrength. -/
def strengthLabels : List String :=
  ["TOO WEAK", "WEAK", "MEDIUM", "STRONG", "VERY STRONG"]

/-- Embedding of calculatePasswordStrength: the nested if chain mirrors the
sequence of assignments to the mutable score variable in the source, the level
is capped with min at 4, and the label is looked up in the label table. -/
def calculatePasswordStrength (password : String) (options : PasswordOptions) :
    StrengthResult :=
  let score :=
    if password.length < 6 then 0
    else if password.length < 8 then (if varietyCount options ≥ 2 then 1 else 0)
    else if password.length < 12 then
      (if varietyCount options ≥ 3 then 2
       else if varietyCount options ≥ 2 then 1 else 0)
    else if password.length < 16 then (if varietyCount options ≥ 3 then 3 else 2)
    else
      (if varietyCount options = 4 then 4
       else if varietyCount options ≥ 3 then 3 else 2)
  let level := min score 4
  let label :=
    if level < strengthLabels.length then strengthLabels.getD level "VERY STRONG"
    else "VERY STRONG"
  ⟨level, label⟩

/-- Level table exactly as the specification states it, as a function of the
password length L and the variety count V.  This definition follows the words
of the spec table, to be compared with the embedding of the source. -/
def claimLevelTable (L V : Nat) : Nat :=
  if L < 6 then 0
  else if L < 8 then (if V ≥ 2 then 1 else 0)
  else if L < 12 then (if V ≥ 3 then 2 else if V ≥ 2 then 1 else 0)
  else if L < 16 then (if V ≥ 3 then 3 else 2)
  else (if V = 4 then 4 else if V ≥ 3 then 3 else 2)

/-- Combined character pool built from the enabled options, mirroring the
characterPool string concatenation in generatePassword. -/
def characterPool (options : PasswordOptions) : List Char :=
  (if options.uppercase then UPPERCASE_CHARS else []) ++
    (if options.lowercase then LOWERCASE_CHARS else []) ++
    (if options.numbers then NUMBER_CHARS else []) ++
    (if options.symbols then SYMBOL_CHARS else [])

/-- List of the enabled category alphabets in the fixed source order
(uppercase, lowercase, numbers, symbols), mirroring the charSets array. -/
def charSets (options : PasswordOptions) : List (List Char) :=
  (if options.uppercase then [UPPERCASE_CHARS] else []) ++
    (if options.lowercase then [LOWERCASE_CHARS] else []) ++
    (if options.numbers then [NUMBER_CHARS] else []) ++
    (if options.symbols then [SYMBOL_CHARS] else [])

/-- Error values of generatePassword, one per throw site in the source. -/
inductive GenError where
  | invalidLength : GenError
  | noCategorySelected : GenError
deriving DecidableEq, Repr

deriving instance DecidableEq for Except

/-- Loop drawing one character from each listed alphabet, mirroring the
requiredChars loop: a fresh 32-bit draw reduced modulo the alphabet size
selects the character. -/
def drawRequired : List (List Char) → (Nat → Nat) → List Char × (Nat → Nat)
  | [], s => ([], s)
  | cs :: rest, s =>
    let c := cs.getD (s 0 % cs.length) '?'
    let next := drawRequired rest (fun n => s (n + 1))
    (c :: next.1, next.2)

/-- One insertion step of the comparator-driven sort applied to requiredChars.
Each comparator call consumes one draw r and reports its first argument as
smaller exactly when r / 0xffffffff - 0.5 is negative, which for 32-bit r
holds exactly when r ≤ 0x7fffffff. -/
def insertRand (c : Char) : List Char → (Nat → Nat) → List Char × (Nat → Nat)
  | [], s => ([c], s)
  | d :: ds, s =>
    if s 0 ≤ 0x7fffffff then (c :: d :: ds, fun n => s (n + 1))
    else
      let next := insertRand c ds (fun n => s (n + 1))
      (d :: next.1, next.2)

/-- Model of requiredChars.sort with the fresh-random comparator.  ECMAScript
leaves the comparison order of a sort under an inconsistent comparator
implementation defined, so the model fixes it as insertion sort; every theorem
below relies only on the output being a rearrangement of the input, which
holds for every conforming sort implementation. -/
def sortWithRandomComparator : List Char → (Nat → Nat) → List Char × (Nat → Nat)
  | [], s => ([], s)
  | c :: cs, s =>
    let next := sortWithRandomComparator cs s
    insertRand c next.1 next.2

/-- Filler loop of generatePassword: count fresh draws, each reduced modulo
the pool size, indexing the combined pool. -/
def fillChars (pool : List Char) : Nat → (Nat → Nat) → List Char × (Nat → Nat)
  | 0, s => ([], s)
  | k + 1, s =>
    let c := pool.getD (s 0 % pool.length) '?'
    let next := fillChars pool k (fun n => s (n + 1))
    (c :: next.1, next.2)

/-- Swap of two positions of a list, mirroring the destructuring swap of two
array cells: both cells are read, then written over. -/
def swapList (l : List Char) (i j : Nat) : List Char :=
  match l[i]?, l[j]? with
  | some a, some b => (l.set i b).set j a
  | _, _ => l

/-- Final Fisher-Yates loop of generatePassword, indexed by the loop counter i
running from the last position down to 1: the target j is a fresh draw reduced
modulo i + 1, and the cells at i and j are swapped. -/
def fisherYatesLoop : List Char → Nat → (Nat → Nat) → List Char × (Nat → Nat)
  | l, 0, s => (l, s)
  | l, i + 1, s =>
    fisherYatesLoop (swapList l (i + 1) (s 0 % (i + 2))) i (fun n => s (n + 1))

/-- Final shuffle of generatePassword over the whole assembled sequence. -/
def fisherYates (l : List Char) (s : Nat → Nat) : List Char × (Nat → Nat) :=
  fisherYatesLoop l (l.length - 1) s

/-- Success branch of generatePassword: draw one required character from each
of the first numRequiredChars enabled alphabets, permute them with the random
comparator sort, append remainingLength filler characters drawn from the
combined pool, and run the final Fisher-Yates pass over the whole sequence. -/
def generateBody (options : PasswordOptions) (s : Nat → Nat) : List Char :=
  let numRequiredChars := min (charSets options).length options.length
  let req := drawRequired ((charSets options).take numRequiredChars) s
  let shuffled := sortWithRandomComparator req.1 req.2
  let remainingLength := options.length - shuffled.1.length
  let fill := fillChars (characterPool options) remainingLength shuffled.2
  (fisherYates (shuffled.1 ++ fill.1) fill.2).1

/-- Embedding of generatePassword over an explicit stream of 32-bit draws.
The length guard runs first, then the empty-pool guard; the two throw
statements become the two error results. -/
def generatePassword (options : PasswordOptions) (s : Nat → Nat) :
    Except GenError String :=
  if options.length < 4 ∨ 50 < options.length then
    Except.error GenError.invalidLength
  else if (characterPool options).length = 0 then
    Except.error GenError.noCategorySelected
  else
    Except.ok (String.mk (generateBody options s))

/-- Decision streams for the bias analysis of the comparator sort: a triple of
comparator outcomes encoded as draws, where a draw of 0 makes the comparator
report less (0 / 0xffffffff - 0.5 is negative) and a draw of 0xffffffff makes
it report greater. -/
def comparatorStream (bits : List Bool) : Nat → Nat :=
  fun n => if bits.getD n false then 0 else 0xffffffff

/-- All eight equally likely comparator decision triples. -/
def allBitTriples : List (List Bool) :=
  [[false, false, false], [false, false, true], [false, true, false],
   [false, true, true], [true, false, false], [true, false, true],
   [true, true, false], [true, true, true]]

/-- Draw stream built from a pair of 32-bit draws, driving the two swaps of
the Fisher-Yates pass on a three-element list. -/
def drawPairStream (p : Nat × Nat) : Nat → Nat :=
  fun n => if n = 0 then p.1 else p.2

/-- All six equally likely reduced draw pairs for a three-element
Fisher-Yates pass: the first draw is taken modulo 3, the second modulo 2. -/
def allDrawPairs : List (Nat × Nat) :=
  [(0, 0), (0, 1), (1, 0), (1, 1), (2, 0), (2, 1)]

theorem calc_level_eq (password : String) (options : PasswordOptions) :
    (calculatePasswordStrength password options).level =
      claimLevelTable password.length (varietyCount options) := by
  simp only [calculatePasswordStrength, claimLevelTable]
  split_ifs <;> rfl

theorem calc_level_le_four (password : String) (options : PasswordOptions) :
    (calculatePasswordStrength password options).level ≤ 4 := by
  simp only [calculatePasswordStrength]
  exact Nat.min_le_right _ 4

theorem calc_label_eq (password : String) (options : PasswordOptions) :
    (calculatePasswordStrength password options).label =
      strengthLabels.getD (calculatePasswordStrength password options).level
        "VERY STRONG" := by
  simp only [calculatePasswordStrength]
  split_ifs <;> simp_all [strengthLabels]

/-- C4: for every password of length L and options with variety count V, the
scorer returns exactly the level given by the spec table, the level lies in
the range 0 to 4, and the label is the entry of the ordered label table
indexed by the level. -/
theorem c4_strength_table (password : String) (options : PasswordOptions) :
    (calculatePasswordStrength password options).level =
      claimLevelTable password.length (varietyCount options) ∧
    (calculatePasswordStrength password options).level ≤ 4 ∧
    (calculatePasswordStrength password options).label =
      strengthLabels.getD (calculatePasswordStrength password options).level
        "VERY STRONG" :=
  ⟨calc_level_eq password options, calc_level_le_four password options,
    calc_label_eq password options⟩

/-- C5 counterexample: with all four category flags false and a password of
length 12, the scorer returns level 2 with label MEDIUM, not level 0. -/
theorem c5_counterexample :
    (calculatePasswordStrength "aaaaaaaaaaaa"
        ⟨12, false, false, false, false⟩).level = 2 ∧
    ¬ ((calculatePasswordStrength "aaaaaaaaaaaa"
        ⟨12, false, false, false, false⟩).level = 0) := by
  decide

/-- C5 (amended): the scorer is total and always returns a level in the range
0 to 4; with the empty category set the level is 0 for password lengths below
12 and 2 for lengths 12 or more. -/
theorem c5_empty_categories (password : String) (options : PasswordOptions)
    (hu : options.uppercase = false) (hl : options.lowercase = false)
    (hn : options.numbers = false) (hs : options.symbols = false) :
    (calculatePasswordStrength password options).level =
      (if password.length < 12 then 0 else 2) ∧
    (calculatePasswordStrength password options).level ≤ 4 := by
  have hv : varietyCount options = 0 := by
    simp [varietyCount, hu, hl, hn, hs]
  refine ⟨?_, calc_level_le_four password options⟩
  rw [calc_level_eq, hv]
  unfold claimLevelTable
  norm_num
  split_ifs <;> omega

theorem c5_empty_categories_witness :
    (calculatePasswordStrength "aaaaaaaaaaaa"
        ⟨12, false, false, false, false⟩).level =
      (if ("aaaaaaaaaaaa" : String).length < 12 then 0 else 2) ∧
    (calculatePasswordStrength "aaaaaaaaaaaa"
        ⟨12, false, false, false, false⟩).level ≤ 4 :=
  c5_empty_categories "aaaaaaaaaaaa" ⟨12, false, false, false, false⟩
    rfl rfl rfl rfl

/-- C9: the scorer is a pure function of the password length and the option
flags; two passwords of equal length receive the same StrengthResult. -/
theorem c9_noninterference (p1 p2 : String) (options : PasswordOptions)
    (h : p1.length = p2.length) :
    calculatePasswordStrength p1 options = calculatePasswordStrength p2 options := by
  unfold calculatePasswordStrength
  rw [h]

theorem c9_noninterference_witness :
    calculatePasswordStrength "abcd" ⟨4, true, true, false, false⟩ =
      calculatePasswordStrength "wxyz" ⟨4, true, true, false, false⟩ :=
  c9_noninterference "abcd" "wxyz" ⟨4, true, true, false, false⟩ rfl

theorem boolCount_le (b1 b2 : Bool) (h : b1 = true → b2 = true) :
    (if b1 then 1 else 0) ≤ (if b2 then 1 else 0) := by
  cases b1 <;> cases b2 <;> simp_all

theorem varietyCount_mono (o1 o2 : PasswordOptions)
    (hu : o1.uppercase = true → o2.uppercase = true)
    (hl : o1.lowercase = true → o2.lowercase = true)
    (hn : o1.numbers = true → o2.numbers = true)
    (hs : o1.symbols = true → o2.symbols = true) :
    varietyCount o1 ≤ varietyCount o2 := by
  unfold varietyCount
  exact Nat.add_le_add
    (Nat.add_le_add
      (Nat.add_le_add (boolCount_le _ _ hu) (boolCount_le _ _ hl))
      (boolCount_le _ _ hn))
    (boolCount_le _ _ hs)

theorem varietyCount_le_four (options : PasswordOptions) :
    varietyCount options ≤ 4 := by
  unfold varietyCount
  split_ifs <;> omega

set_option maxHeartbeats 2000000 in
theorem claimLevelTable_mono_length (L1 L2 V : Nat) (h : L1 ≤ L2) :
    claimLevelTable L1 V ≤ claimLevelTable L2 V := by
  unfold claimLevelTable
  split_ifs <;> omega

set_option maxHeartbeats 1000000 in
theorem claimLevelTable_mono_variety (L V1 V2 : Nat) (h : V1 ≤ V2) (h4 : V2 ≤ 4) :
    claimLevelTable L V1 ≤ claimLevelTable L V2 := by
  unfold claimLevelTable
  split_ifs <;> omega

/-- C10: the level returned by the scorer is monotone: non-decreasing in the
password length for fixed options, and non-decreasing when the set of enabled
category flags grows for a fixed password. -/
theorem c10_monotonicity :
    (∀ (p1 p2 : String) (options : PasswordOptions), p1.length ≤ p2.length →
      (calculatePasswordStrength p1 options).level ≤
        (calculatePasswordStrength p2 options).level) ∧
    (∀ (password : String) (o1 o2 : PasswordOptions),
      (o1.uppercase = true → o2.uppercase = true) →
      (o1.lowercase = true → o2.lowercase = true) →
      (o1.numbers = true → o2.numbers = true) →
      (o1.symbols = true → o2.symbols = true) →
      (calculatePasswordStrength password o1).level ≤
        (calculatePasswordStrength password o2).level) := by
  constructor
  · intro p1 p2 options h
    rw [calc_level_eq, calc_level_eq]
    exact claimLevelTable_mono_length _ _ _ h
  · intro password o1 o2 hu hl hn hs
    rw [calc_level_eq, calc_level_eq]
    exact claimLevelTable_mono_variety _ _ _
      (varietyCount_mono o1 o2 hu hl hn hs) (varietyCount_le_four o2)

theorem c10_monotonicity_witness :
    (calculatePasswordStrength "abcd" ⟨4, true, true, false, false⟩).level ≤
      (calculatePasswordStrength "abcdefghijklmnop"
        ⟨16, true, true, false, false⟩).level ∧
    (calculatePasswordStrength "abcdefghijklmnop"
        ⟨16, true, false, false, false⟩).level ≤
      (calculatePasswordStrength "abcdefghijklmnop"
        ⟨16, true, true, true, true⟩).level :=
  ⟨c10_monotonicity.1 "abcd" "abcdefghijklmnop" ⟨16, true, true, false, false⟩
      (by decide),
    c10_monotonicity.2 "abcdefghijklmnop" ⟨16, true, false, false, false⟩
      ⟨16, true, true, true, true⟩ (fun h => h) (fun _ => rfl) (fun _ => rfl)
      (fun _ => rfl)⟩

theorem drawRequired_length (sets : List (List Char)) (s : Nat → Nat) :
    (drawRequired sets s).1.length = sets.length := by
  induction sets generalizing s with
  | nil => rfl
  | cons cs rest ih =>
      simp only [drawRequired, List.length_cons]
      rw [ih]

theorem drawRequired_forall₂ (sets : List (List Char)) (s : Nat → Nat)
    (h : ∀ cs ∈ sets, cs ≠ []) :
    List.Forall₂ (fun c cs => c ∈ cs) (drawRequired sets s).1 sets := by
  induction sets generalizing s with
  | nil => exact List.Forall₂.nil
  | cons cs rest ih =>
      simp only [drawRequired]
      refine List.Forall₂.cons ?_ (ih _ (fun x hx => h x (List.mem_cons_of_mem _ hx)))
      have hne : cs ≠ [] := h cs (List.mem_cons_self _ _)
      have hlt : s 0 % cs.length < cs.length :=
        Nat.mod_lt _ (List.length_pos.mpr hne)
      rw [List.getD_eq_getElem cs '?' hlt]
      exact List.getElem_mem hlt

theorem insertRand_perm (c : Char) (l : List Char) (s : Nat → Nat) :
    (insertRand c l s).1.Perm (c :: l) := by
  induction l generalizing s with
  | nil => simp [insertRand]
  | cons d ds ih =>
      simp only [insertRand]
      split_ifs with h
      · exact List.Perm.refl _
      · exact ((ih _).cons d).trans (List.Perm.swap c d ds)

theorem sortRand_perm (l : List Char) (s : Nat → Nat) :
    (sortWithRandomComparator l s).1.Perm l := by
  induction l generalizing s with
  | nil => simp [sortWithRandomComparator]
  | cons c cs ih =>
      simp only [sortWithRandomComparator]
      exact (insertRand_perm c _ _).trans ((ih _).cons c)

theorem fillChars_length (pool : List Char) (k : Nat) (s : Nat → Nat) :
    (fillChars pool k s).1.length = k := by
  induction k generalizing s with
  | zero => rfl
  | succ k ih =>
      simp only [fillChars, List.length_cons]
      rw [ih]

theorem fillChars_mem (pool : List Char) (hpool : pool ≠ []) (k : Nat)
    (s : Nat → Nat) : ∀ c ∈ (fillChars pool k s).1, c ∈ pool := by
  induction k generalizing s with
  | zero => intro c hc; simp [fillChars] at hc
  | succ k ih =>
      intro c hc
      simp only [fillChars, List.mem_cons] at hc
      rcases hc with hc | hc
      · subst hc
        have hlt : s 0 % pool.length < pool.length :=
          Nat.mod_lt _ (List.length_pos.mpr hpool)
        rw [List.getD_eq_getElem pool '?' hlt]
        exact List.getElem_mem hlt
      · exact ih _ c hc

theorem set_cons_perm (xs : List Char) (k : Nat) (x b : Char)
    (h : xs[k]? = some b) : (b :: xs.set k x).Perm (x :: xs) := by
  induction xs generalizing k with
  | nil => simp at h
  | cons y t ih =>
      cases k with
      | zero =>
          simp only [List.getElem?_cons_zero, Option.some.injEq] at h
          subst h
          simpa using List.Perm.swap x y t
      | succ k =>
          simp only [List.getElem?_cons_succ] at h
          simp only [List.set_cons_succ]
          exact ((List.Perm.swap y b _).trans ((ih k h).cons y)).trans
            (List.Perm.swap x y t)

theorem swapList_perm (l : List Char) (i j : Nat) : (swapList l i j).Perm l := by
  induction l generalizing i j with
  | nil => simp [swapList]
  | cons x xs ih =>
      cases i with
      | zero =>
          cases j with
          | zero => simp [swapList]
          | succ k =>
              cases hk : xs[k]? with
              | none => simp [swapList, hk]
              | some b =>
                  simp only [swapList, List.getElem?_cons_zero,
                    List.getElem?_cons_succ, hk, List.set_cons_zero,
                    List.set_cons_succ]
                  exact set_cons_perm xs k x b hk
      | succ k =>
          cases j with
          | zero =>
              cases hk : xs[k]? with
              | none => simp [swapList, hk]
              | some a =>
                  simp only [swapList, List.getElem?_cons_zero,
                    List.getElem?_cons_succ, hk, List.set_cons_zero,
                    List.set_cons_succ]
                  exact set_cons_perm xs k x a hk
          | succ m =>
              cases hk : xs[k]? with
              | none => simp [swapList, hk]
              | some a =>
                  cases hm : xs[m]? with
                  | none => simp [swapList, hk, hm]
                  | some b =>
                      simp only [swapList, List.getElem?_cons_succ, hk, hm,
                        List.set_cons_succ]
                      have hsw : swapList xs k m = (xs.set k b).set m a := by
                        simp [swapList, hk, hm]
                      have hp := ih k m
                      rw [hsw] at hp
                      exact hp.cons x

theorem fisherYatesLoop_perm (i : Nat) (l : List Char) (s : Nat → Nat) :
    (fisherYatesLoop l i s).1.Perm l := by
  induction i generalizing l s with
  | zero => simp [fisherYatesLoop]
  | succ i ih =>
      simp only [fisherYatesLoop]
      exact (ih _ _).trans (swapList_perm _ _ _)

theorem fisherYates_perm (l : List Char) (s : Nat → Nat) :
    (fisherYates l s).1.Perm l :=
  fisherYatesLoop_perm _ l s

theorem charSets_sets_ne_nil (options : PasswordOptions) :
    ∀ cs ∈ charSets options, cs ≠ [] := by
  rcases options with ⟨len, u, lo, nu, sy⟩
  cases u <;> cases lo <;> cases nu <;> cases sy <;> simp [charSets] <;> decide

theorem charSets_subset_pool (options : PasswordOptions) :
    ∀ cs ∈ charSets options, ∀ c ∈ cs, c ∈ characterPool options := by
  rcases options with ⟨len, u, lo, nu, sy⟩
  cases u <;> cases lo <;> cases nu <;> cases sy <;>
    simp [charSets, characterPool] <;> decide

theorem charSets_mem_of_flag (options : PasswordOptions) :
    (options.uppercase = true → UPPERCASE_CHARS ∈ charSets options) ∧
    (options.lowercase = true → LOWERCASE_CHARS ∈ charSets options) ∧
    (options.numbers = true → NUMBER_CHARS ∈ charSets options) ∧
    (options.symbols = true → SYMBOL_CHARS ∈ charSets options) := by
  rcases options with ⟨len, u, lo, nu, sy⟩
  cases u <;> cases lo <;> cases nu <;> cases sy <;> simp [charSets]

theorem charSets_length_le_four (options : PasswordOptions) :
    (charSets options).length ≤ 4 := by
  rcases options with ⟨len, u, lo, nu, sy⟩
  cases u <;> cases lo <;> cases nu <;> cases sy <;> simp [charSets]

theorem characterPool_length_ne_zero (options : PasswordOptions)
    (h : options.uppercase = true ∨ options.lowercase = true ∨
      options.numbers = true ∨ options.symbols = true) :
    (characterPool options).length ≠ 0 := by
  rcases options with ⟨len, u, lo, nu, sy⟩
  cases u <;> cases lo <;> cases nu <;> cases sy <;>
    simp_all [characterPool] <;> decide

theorem mem_ite_list (b : Bool) (xs : List Char) (c : Char)
    (h : c ∈ if b then xs else []) : b = true ∧ c ∈ xs := by
  cases b <;> simp_all

theorem mem_characterPool_cases (options : PasswordOptions) (c : Char)
    (h : c ∈ characterPool options) :
    (options.uppercase = true ∧ c ∈ UPPERCASE_CHARS) ∨
    (options.lowercase = true ∧ c ∈ LOWERCASE_CHARS) ∨
    (options.numbers = true ∧ c ∈ NUMBER_CHARS) ∨
    (options.symbols = true ∧ c ∈ SYMBOL_CHARS) := by
  simp only [characterPool, List.mem_append] at h
  rcases h with ((h | h) | h) | h
  · exact Or.inl (mem_ite_list _ _ _ h)
  · exact Or.inr (Or.inl (mem_ite_list _ _ _ h))
  · exact Or.inr (Or.inr (Or.inl (mem_ite_list _ _ _ h)))
  · exact Or.inr (Or.inr (Or.inr (mem_ite_list _ _ _ h)))

theorem disjoint_from_upper :
    (∀ c ∈ LOWERCASE_CHARS, c ∉ UPPERCASE_CHARS) ∧
    (∀ c ∈ NUMBER_CHARS, c ∉ UPPERCASE_CHARS) ∧
    (∀ c ∈ SYMBOL_CHARS, c ∉ UPPERCASE_CHARS) := by
  decide

theorem disjoint_from_lower :
    (∀ c ∈ UPPERCASE_CHARS, c ∉ LOWERCASE_CHARS) ∧
    (∀ c ∈ NUMBER_CHARS, c ∉ LOWERCASE_CHARS) ∧
    (∀ c ∈ SYMBOL_CHARS, c ∉ LOWERCASE_CHARS) := by
  decide

theorem disjoint_from_number :
    (∀ c ∈ UPPERCASE_CHARS, c ∉ NUMBER_CHARS) ∧
    (∀ c ∈ LOWERCASE_CHARS, c ∉ NUMBER_CHARS) ∧
    (∀ c ∈ SYMBOL_CHARS, c ∉ NUMBER_CHARS) := by
  decide

theorem disjoint_from_symbol :
    (∀ c ∈ UPPERCASE_CHARS, c ∉ SYMBOL_CHARS) ∧
    (∀ c ∈ LOWERCASE_CHARS, c ∉ SYMBOL_CHARS) ∧
    (∀ c ∈ NUMBER_CHARS, c ∉ SYMBOL_CHARS) := by
  decide

theorem characterPool_disjoint (options : PasswordOptions) :
    (options.uppercase = false → ∀ c ∈ characterPool options, c ∉ UPPERCASE_CHARS) ∧
    (options.lowercase = false → ∀ c ∈ characterPool options, c ∉ LOWERCASE_CHARS) ∧
    (options.numbers = false → ∀ c ∈ characterPool options, c ∉ NUMBER_CHARS) ∧
    (options.symbols = false → ∀ c ∈ characterPool options, c ∉ SYMBOL_CHARS) := by
  refine ⟨fun hflag c hc => ?_, fun hflag c hc => ?_,
    fun hflag c hc => ?_, fun hflag c hc => ?_⟩ <;>
    rcases mem_characterPool_cases options c hc with
      ⟨hf, hm⟩ | ⟨hf, hm⟩ | ⟨hf, hm⟩ | ⟨hf, hm⟩
  · rw [hflag] at hf; cases hf
  · exact disjoint_from_upper.1 c hm
  · exact disjoint_from_upper.2.1 c hm
  · exact disjoint_from_upper.2.2 c hm
  · exact disjoint_from_lower.1 c hm
  · rw [hflag] at hf; cases hf
  · exact disjoint_from_lower.2.1 c hm
  · exact disjoint_from_lower.2.2 c hm
  · exact disjoint_from_number.1 c hm
  · exact disjoint_from_number.2.1 c hm
  · rw [hflag] at hf; cases hf
  · exact disjoint_from_number.2.2 c hm
  · exact disjoint_from_symbol.1 c hm
  · exact disjoint_from_symbol.2.1 c hm
  · exact disjoint_from_symbol.2.2 c hm
  · rw [hflag] at hf; cases hf

theorem forall₂_mem_left (l₁ : List Char) (l₂ : List (List Char))
    (h : List.Forall₂ (fun c cs => c ∈ cs) l₁ l₂) :
    ∀ c ∈ l₁, ∃ cs ∈ l₂, c ∈ cs := by
  induction h with
  | nil => intro c hc; simp at hc
  | cons hR hrest ih =>
      intro c hc
      rcases List.mem_cons.mp hc with rfl | hc
      · exact ⟨_, List.mem_cons_self _ _, hR⟩
      · obtain ⟨cs, hcs, hmem⟩ := ih c hc
        exact ⟨cs, List.mem_cons_of_mem _ hcs, hmem⟩

theorem forall₂_mem_right (l₁ : List Char) (l₂ : List (List Char))
    (h : List.Forall₂ (fun c cs => c ∈ cs) l₁ l₂) :
    ∀ cs ∈ l₂, ∃ c ∈ l₁, c ∈ cs := by
  induction h with
  | nil => intro cs hcs; simp at hcs
  | cons hR hrest ih =>
      intro cs hcs
      rcases List.mem_cons.mp hcs with rfl | hcs
      · exact ⟨_, List.mem_cons_self _ _, hR⟩
      · obtain ⟨c, hc, hmem⟩ := ih cs hcs
        exact ⟨c, List.mem_cons_of_mem _ hc, hmem⟩

theorem generateBody_spec (options : PasswordOptions) (s : Nat → Nat)
    (hpool : characterPool options ≠ []) :
    ∃ req fill : List Char,
      (generateBody options s).Perm (req ++ fill) ∧
      List.Forall₂ (fun c cs => c ∈ cs) req
        ((charSets options).take (min (charSets options).length options.length)) ∧
      (∀ c ∈ fill, c ∈ characterPool options) ∧
      req.length = min (charSets options).length options.length ∧
      fill.length = options.length - req.length := by
  have hsets : ∀ cs ∈ (charSets options).take
      (min (charSets options).length options.length), cs ≠ [] :=
    fun cs hcs => charSets_sets_ne_nil options cs (List.take_subset _ _ hcs)
  simp only [generateBody]
  set m := min (charSets options).length options.length with hm
  set R := drawRequired ((charSets options).take m) s with hR
  set S := sortWithRandomComparator R.1 R.2 with hS
  set F := fillChars (characterPool options) (options.length - S.1.length) S.2
    with hF
  have hSR : S.1.Perm R.1 := by rw [hS]; exact sortRand_perm R.1 R.2
  refine ⟨R.1, F.1, ?_, ?_, ?_, ?_, ?_⟩
  · exact (fisherYates_perm _ _).trans (hSR.append_right F.1)
  · rw [hR]; exact drawRequired_forall₂ _ _ hsets
  · rw [hF]; exact fillChars_mem _ hpool _ _
  · rw [hR, drawRequired_length, List.length_take]
    have := charSets_length_le_four options
    omega
  · rw [hF, fillChars_length]
    have hlen : S.1.length = R.1.length := hSR.length_eq
    omega

theorem generate_eq_ok (options : PasswordOptions) (s : Nat → Nat)
    (h4 : 4 ≤ options.length) (h50 : options.length ≤ 50)
    (hpool : (characterPool options).length ≠ 0) :
    generatePassword options s =
      Except.ok (String.mk (generateBody options s)) := by
  unfold generatePassword
  rw [if_neg (by omega), if_neg hpool]

/-- C2: for every options with length between 4 and 50 and at least one
category flag enabled, generatePassword succeeds and the returned string has
length exactly options.length. -/
theorem c2_exact_length (options : PasswordOptions) (s : Nat → Nat)
    (h4 : 4 ≤ options.length) (h50 : options.length ≤ 50)
    (hcat : options.uppercase = true ∨ options.lowercase = true ∨
      options.numbers = true ∨ options.symbols = true) :
    ∃ p : String, generatePassword options s = Except.ok p ∧
      p.length = options.length := by
  have hpool := characterPool_length_ne_zero options hcat
  have hpoolne : characterPool options ≠ [] := by
    intro he; exact hpool (by rw [he]; rfl)
  refine ⟨String.mk (generateBody options s),
    generate_eq_ok options s h4 h50 hpool, ?_⟩
  obtain ⟨req, fill, hperm, hfa, hfill, hreqlen, hfilllen⟩ :=
    generateBody_spec options s hpoolne
  have hlen := hperm.length_eq
  have hle4 := charSets_length_le_four options
  show (generateBody options s).length = options.length
  rw [hlen, List.length_append]
  omega

theorem c2_exact_length_witness :
    ∃ p : String,
      generatePassword ⟨16, true, true, true, true⟩ (fun _ => 0) =
        Except.ok p ∧
      p.length = (⟨16, true, true, true, true⟩ : PasswordOptions).length :=
  c2_exact_length ⟨16, true, true, true, true⟩ (fun _ => 0)
    (by decide) (by decide) (Or.inl rfl)

set_option maxHeartbeats 1000000 in
/-- C1: for every options with length between 4 and 50 and at least one
category flag enabled, the generated password contains at least one character
from each of the first min(k, length) enabled category alphabets taken in the
fixed source order, and in particular at least one character from every
enabled category alphabet. -/
theorem c1_coverage (options : PasswordOptions) (s : Nat → Nat)
    (h4 : 4 ≤ options.length) (h50 : options.length ≤ 50)
    (hcat : options.uppercase = true ∨ options.lowercase = true ∨
      options.numbers = true ∨ options.symbols = true) :
    ∃ p : String, generatePassword options s = Except.ok p ∧
      (∀ cs ∈ (charSets options).take
          (min (charSets options).length options.length),
        ∃ c ∈ p.data, c ∈ cs) ∧
      (options.uppercase = true → ∃ c ∈ p.data, c ∈ UPPERCASE_CHARS) ∧
      (options.lowercase = true → ∃ c ∈ p.data, c ∈ LOWERCASE_CHARS) ∧
      (options.numbers = true → ∃ c ∈ p.data, c ∈ NUMBER_CHARS) ∧
      (options.symbols = true → ∃ c ∈ p.data, c ∈ SYMBOL_CHARS) := by
  have hpool := characterPool_length_ne_zero options hcat
  have hpoolne : characterPool options ≠ [] := by
    intro he; exact hpool (by rw [he]; rfl)
  refine ⟨String.mk (generateBody options s),
    generate_eq_ok options s h4 h50 hpool, ?_⟩
  obtain ⟨req, fill, hperm, hfa, hfill, hreqlen, hfilllen⟩ :=
    generateBody_spec options s hpoolne
  have hcov : ∀ cs ∈ (charSets options).take
      (min (charSets options).length options.length),
      ∃ c ∈ (generateBody options s), c ∈ cs := by
    intro cs hcs
    obtain ⟨c, hc, hmem⟩ := forall₂_mem_right _ _ hfa cs hcs
    exact ⟨c, hperm.mem_iff.mpr (List.mem_append_left _ hc), hmem⟩
  have htake : (charSets options).take
      (min (charSets options).length options.length) = charSets options := by
    have hle4 := charSets_length_le_four options
    have hm : min (charSets options).length options.length =
        (charSets options).length := by omega
    rw [hm, List.take_of_length_le (Nat.le_refl _)]
  obtain ⟨f1, f2, f3, f4⟩ := charSets_mem_of_flag options
  refine ⟨hcov, fun hf => ?_, fun hf => ?_, fun hf => ?_, fun hf => ?_⟩
  · exact hcov UPPERCASE_CHARS (by rw [htake]; exact f1 hf)
  · exact hcov LOWERCASE_CHARS (by rw [htake]; exact f2 hf)
  · exact hcov NUMBER_CHARS (by rw [htake]; exact f3 hf)
  · exact hcov SYMBOL_CHARS (by rw [htake]; exact f4 hf)

set_option maxHeartbeats 1000000 in
theorem c1_coverage_witness :
    ∃ p : String,
      generatePassword ⟨10, true, true, true, true⟩ (fun _ => 0) =
        Except.ok p ∧
      (∀ cs ∈ (charSets ⟨10, true, true, true, true⟩).take
          (min (charSets ⟨10, true, true, true, true⟩).length
            (⟨10, true, true, true, true⟩ : PasswordOptions).length),
        ∃ c ∈ p.data, c ∈ cs) ∧
      ((⟨10, true, true, true, true⟩ : PasswordOptions).uppercase = true →
        ∃ c ∈ p.data, c ∈ UPPERCASE_CHARS) ∧
      ((⟨10, true, true, true, true⟩ : PasswordOptions).lowercase = true →
        ∃ c ∈ p.data, c ∈ LOWERCASE_CHARS) ∧
      ((⟨10, true, true, true, true⟩ : PasswordOptions).numbers = true →
        ∃ c ∈ p.data, c ∈ NUMBER_CHARS) ∧
      ((⟨10, true, true, true, true⟩ : PasswordOptions).symbols = true →
        ∃ c ∈ p.data, c ∈ SYMBOL_CHARS) :=
  c1_coverage ⟨10, true, true, true, true⟩ (fun _ => 0)
    (by decide) (by decide) (Or.inl rfl)

set_option maxHeartbeats 1600000 in
/-- C3: whenever generatePassword succeeds, every character of the output lies
in the combined pool of the enabled category alphabets, and no character lies
in the alphabet of a disabled category. -/
theorem c3_alphabet_membership (options : PasswordOptions) (s : Nat → Nat)
    (p : String) (h : generatePassword options s = Except.ok p) :
    (∀ c ∈ p.data, c ∈ characterPool options) ∧
    (options.uppercase = false → ∀ c ∈ p.data, c ∉ UPPERCASE_CHARS) ∧
    (options.lowercase = false → ∀ c ∈ p.data, c ∉ LOWERCASE_CHARS) ∧
    (options.numbers = false → ∀ c ∈ p.data, c ∉ NUMBER_CHARS) ∧
    (options.symbols = false → ∀ c ∈ p.data, c ∉ SYMBOL_CHARS) := by
  unfold generatePassword at h
  by_cases h1 : options.length < 4 ∨ 50 < options.length
  · rw [if_pos h1] at h; simp at h
  rw [if_neg h1] at h
  by_cases h2 : (characterPool options).length = 0
  · rw [if_pos h2] at h; simp at h
  rw [if_neg h2] at h
  injection h with h
  subst h
  have hpoolne : characterPool options ≠ [] := by
    intro he; exact h2 (by rw [he]; rfl)
  obtain ⟨req, fill, hperm, hfa, hfill, hreqlen, hfilllen⟩ :=
    generateBody_spec options s hpoolne
  have hall : ∀ c ∈ (generateBody options s), c ∈ characterPool options := by
    intro c hc
    rcases List.mem_append.mp (hperm.mem_iff.mp hc) with hc3 | hc3
    · obtain ⟨cs, hcs, hmem⟩ := forall₂_mem_left _ _ hfa c hc3
      exact charSets_subset_pool options cs (List.take_subset _ _ hcs) c hmem
    · exact hfill c hc3
  obtain ⟨d1, d2, d3, d4⟩ := characterPool_disjoint options
  exact ⟨hall, fun hf c hc => d1 hf c (hall c hc),
    fun hf c hc => d2 hf c (hall c hc),
    fun hf c hc => d3 hf c (hall c hc),
    fun hf c hc => d4 hf c (hall c hc)⟩

set_option maxHeartbeats 1600000 in
theorem c3_alphabet_membership_witness :
    (∀ c ∈ ("a0!A" : String).data,
      c ∈ characterPool ⟨4, true, true, true, true⟩) ∧
    ((⟨4, true, true, true, true⟩ : PasswordOptions).uppercase = false →
      ∀ c ∈ ("a0!A" : String).data, c ∉ UPPERCASE_CHARS) ∧
    ((⟨4, true, true, true, true⟩ : PasswordOptions).lowercase = false →
      ∀ c ∈ ("a0!A" : String).data, c ∉ LOWERCASE_CHARS) ∧
    ((⟨4, true, true, true, true⟩ : PasswordOptions).numbers = false →
      ∀ c ∈ ("a0!A" : String).data, c ∉ NUMBER_CHARS) ∧
    ((⟨4, true, true, true, true⟩ : PasswordOptions).symbols = false →
      ∀ c ∈ ("a0!A" : String).data, c ∉ SYMBOL_CHARS) :=
  c3_alphabet_membership ⟨4, true, true, true, true⟩ (fun _ => 0) "a0!A"
    (by decide)

/-- C7 counterexample: with all four category flags false and length 3, the
generator fails with the invalid-length error, not with the no-category
error, because the length guard runs first. -/
theorem c7_counterexample :
    generatePassword ⟨3, false, false, false, false⟩ (fun _ => 0) =
      Except.error GenError.invalidLength ∧
    generatePassword ⟨3, false, false, false, false⟩ (fun _ => 0) ≠
      Except.error GenError.noCategorySelected := by
  decide

/-- C7 (amended): with all four category flags false, the generator fails with
the no-category error for every length inside the valid range 4 to 50; for
lengths outside that range the invalid-length error takes precedence. -/
theorem c7_no_category (options : PasswordOptions) (s : Nat → Nat)
    (h4 : 4 ≤ options.length) (h50 : options.length ≤ 50)
    (hu : options.uppercase = false) (hl : options.lowercase = false)
    (hn : options.numbers = false) (hs : options.symbols = false) :
    generatePassword options s = Except.error GenError.noCategorySelected := by
  have hpool : characterPool options = [] := by
    simp [characterPool, hu, hl, hn, hs]
  unfold generatePassword
  rw [if_neg (by omega), if_pos (by rw [hpool]; rfl)]

theorem c7_no_category_witness :
    generatePassword ⟨10, false, false, false, false⟩ (fun _ => 0) =
      Except.error GenError.noCategorySelected :=
  c7_no_category ⟨10, false, false, false, false⟩ (fun _ => 0)
    (by decide) (by decide) rfl rfl rfl rfl

/-- C8: the generator fails with the invalid-length error exactly when the
requested length lies outside 4 to 50, and succeeds whenever the length is in
range and at least one category flag is enabled. -/
theorem c8_invalid_length (options : PasswordOptions) (s : Nat → Nat) :
    (generatePassword options s = Except.error GenError.invalidLength ↔
      (options.length < 4 ∨ 50 < options.length)) ∧
    (4 ≤ options.length → options.length ≤ 50 →
      (options.uppercase = true ∨ options.lowercase = true ∨
        options.numbers = true ∨ options.symbols = true) →
      ∃ p : String, generatePassword options s = Except.ok p) := by
  constructor
  · constructor
    · intro h
      by_contra hn
      unfold generatePassword at h
      rw [if_neg hn] at h
      by_cases h2 : (characterPool options).length = 0
      · rw [if_pos h2] at h; simp at h
      · rw [if_neg h2] at h; simp at h
    · intro h
      unfold generatePassword
      rw [if_pos h]
  · intro h4 h50 hcat
    exact ⟨_, generate_eq_ok options s h4 h50
      (characterPool_length_ne_zero options hcat)⟩

theorem c8_invalid_length_witness :
    generatePassword ⟨3, true, true, true, true⟩ (fun _ => 0) =
      Except.error GenError.invalidLength ∧
    generatePassword ⟨51, true, true, true, true⟩ (fun _ => 0) =
      Except.error GenError.invalidLength ∧
    (∃ p : String, generatePassword ⟨4, true, true, true, true⟩ (fun _ => 0) =
      Except.ok p) ∧
    (∃ p : String, generatePassword ⟨50, true, true, true, true⟩ (fun _ => 0) =
      Except.ok p) :=
  ⟨(c8_invalid_length ⟨3, true, true, true, true⟩ (fun _ => 0)).1.mpr
      (by decide),
   (c8_invalid_length ⟨51, true, true, true, true⟩ (fun _ => 0)).1.mpr
      (by decide),
   (c8_invalid_length ⟨4, true, true, true, true⟩ (fun _ => 0)).2
      (by decide) (by decide) (Or.inl rfl),
   (c8_invalid_length ⟨50, true, true, true, true⟩ (fun _ => 0)).2
      (by decide) (by decide) (Or.inl rfl)⟩

/-- C6 (code bug): the required characters are permuted by the random
comparator sort, not by Fisher-Yates, and that sort is biased: over the eight
equally likely comparator decision triples the modelled sort leaves a three
element list in its original order twice while producing the order b, a, c
only once, so the orders are not equally frequent; by contrast the
Fisher-Yates pass that the source applies to the final sequence reaches each
of the six orders of the same list exactly once over the six equally likely
reduced draw pairs. -/
theorem c6_sort_shuffle_biased :
    ((allBitTriples.filter (fun bv =>
        decide ((sortWithRandomComparator ['a', 'b', 'c']
          (comparatorStream bv)).1 = ['a', 'b', 'c']))).length = 2 ∧
     (allBitTriples.filter (fun bv =>
        decide ((sortWithRandomComparator ['a', 'b', 'c']
          (comparatorStream bv)).1 = ['b', 'a', 'c']))).length = 1) ∧
    (∀ target ∈ [['a', 'b', 'c'], ['a', 'c', 'b'], ['b', 'a', 'c'],
        ['b', 'c', 'a'], ['c', 'a', 'b'], ['c', 'b', 'a']],
      (allDrawPairs.filter (fun pr =>
        decide ((fisherYates ['a', 'b', 'c'] (drawPairStream pr)).1 =
          target))).length = 1) := by
  decide
